import Mathlib

/-!
Verification development for the Reflexible VS Code extension's session
orchestrator core (sources: `ai-session.ts` / `project-tree-provider.ts`,
`file-manager.ts`, `api.ts`, `project-manager.ts`, `ChatPanelManager`).

The transport stream is modelled at the level of decoded characters
(`List Char`): the source pipes bytes through `TextDecoder.decode(value,
{stream: true})`, which reassembles UTF-8 code points across chunk
boundaries, so characters are the atoms the splitting logic actually sees.
Strings are `List Char` throughout so that every definition evaluates by
kernel reduction.
-/

namespace Reflexible

/-! ## Character-list string helpers (JS string primitives) -/

/-- JS `String.prototype.startsWith(pat)` on character lists. -/
def startsWithL : List Char → List Char → Bool
  | [], _ => true
  | _ :: _, [] => false
  | p :: ps, c :: cs => p = c && startsWithL ps cs

/-- JS `String.prototype.includes(pat)` on character lists. -/
def hasSub (pat : List Char) : List Char → Bool
  | [] => startsWithL pat []
  | s@(_ :: cs) => startsWithL pat s || hasSub pat cs

/-- The whitespace class removed by JS `String.prototype.trim` (ASCII part). -/
def isJsWs (c : Char) : Bool :=
  c = ' ' || c = '\t' || c = '\n' || c = '\r' || c = '\x0b' || c = '\x0c'

/-- JS `String.prototype.trim` on character lists. -/
def trimL (s : List Char) : List Char :=
  ((s.dropWhile isJsWs).reverse.dropWhile isJsWs).reverse

/-- JS `String.prototype.toLowerCase` (ASCII behaviour suffices here). -/
def toLowerL (s : List Char) : List Char :=
  s.map Char.toLower

/-! ## JSON values and `JSON.parse`

The source calls the JS builtin `JSON.parse` on each frame payload and
inspects `parsed.type` / `parsed.message`.  We embed a standard JSON
recursive-descent parser: numbers are kept as mantissa × 10^exponent, and
strings support the JSON escapes including `\uXXXX`. -/

inductive Json where
  | jnull : Json
  | jbool : Bool → Json
  | jnum : Int → Int → Json
  | jstr : List Char → Json
  | jarr : List Json → Json
  | jobj : List (List Char × Json) → Json

/-- Skip JSON insignificant whitespace. -/
def skipWs (s : List Char) : List Char :=
  s.dropWhile (fun c => c = ' ' || c = '\t' || c = '\n' || c = '\r')

/-- Hex digit value, if any. -/
def hexVal (c : Char) : Option Nat :=
  if '0' ≤ c ∧ c ≤ '9' then some (c.toNat - '0'.toNat)
  else if 'a' ≤ c ∧ c ≤ 'f' then some (c.toNat - 'a'.toNat + 10)
  else if 'A' ≤ c ∧ c ≤ 'F' then some (c.toNat - 'A'.toNat + 10)
  else none

/-- Parse the body of a JSON string (after the opening quote); returns the
decoded characters and the rest of the input after the closing quote. -/
def parseStrBody : List Char → Option (List Char × List Char)
  | [] => none
  | '"' :: r => some ([], r)
  | '\\' :: e :: r =>
    match e with
    | '"' => (parseStrBody r).map (fun p => ('"' :: p.1, p.2))
    | '\\' => (parseStrBody r).map (fun p => ('\\' :: p.1, p.2))
    | '/' => (parseStrBody r).map (fun p => ('/' :: p.1, p.2))
    | 'b' => (parseStrBody r).map (fun p => ('\x08' :: p.1, p.2))
    | 'f' => (parseStrBody r).map (fun p => ('\x0c' :: p.1, p.2))
    | 'n' => (parseStrBody r).map (fun p => ('\n' :: p.1, p.2))
    | 'r' => (parseStrBody r).map (fun p => ('\r' :: p.1, p.2))
    | 't' => (parseStrBody r).map (fun p => ('\t' :: p.1, p.2))
    | 'u' =>
      match r with
      | a :: b :: c :: d :: r' =>
        match hexVal a, hexVal b, hexVal c, hexVal d with
        | some x, some y, some z, some w =>
          (parseStrBody r').map
            (fun p => (Char.ofNat (((x * 16 + y) * 16 + z) * 16 + w) :: p.1, p.2))
        | _, _, _, _ => none
      | _ => none
    | _ => none
  | c :: r => (parseStrBody r).map (fun p => (c :: p.1, p.2))

/-- Parse an unsigned digit run as a natural number (already nonempty). -/
def digitsVal (ds : List Char) : Nat :=
  ds.foldl (fun acc c => acc * 10 + (c.toNat - '0'.toNat)) 0

/-- Parse a JSON number at the head of the input, returning mantissa and
power-of-ten exponent plus the remaining input. -/
def parseNum (s : List Char) : Option ((Int × Int) × List Char) :=
  let (neg, s1) := match s with
    | '-' :: r => (true, r)
    | _ => (false, s)
  let intPart := s1.takeWhile Char.isDigit
  let s2 := s1.dropWhile Char.isDigit
  if intPart = [] then none else
  let (fracPart, s3) := match s2 with
    | '.' :: r =>
      let f := r.takeWhile Char.isDigit
      (f, r.dropWhile Char.isDigit)
    | _ => ([], s2)
  if s2 ≠ [] ∧ s2.head? = some '.' ∧ fracPart = [] then none else
  let (expVal, s4, expOk) := match s3 with
    | 'e' :: r | 'E' :: r =>
      let (esign, r1) := match r with
        | '+' :: r' => ((1 : Int), r')
        | '-' :: r' => ((-1 : Int), r')
        | _ => ((1 : Int), r)
      let eds := r1.takeWhile Char.isDigit
      (esign * (digitsVal eds : Int), r1.dropWhile Char.isDigit, eds != [])
    | _ => ((0 : Int), s3, true)
  if expOk = false then none else
  let mantissa : Int := (digitsVal (intPart ++ fracPart) : Int)
  let mantissa := if neg then -mantissa else mantissa
  some ((mantissa, expVal - (fracPart.length : Int)), s4)

mutual

/-- Parse one JSON value; `fuel` bounds recursion depth. -/
def parseVal : Nat → List Char → Option (Json × List Char)
  | 0, _ => none
  | Nat.succ f, s =>
    match skipWs s with
    | 'n' :: 'u' :: 'l' :: 'l' :: r => some (.jnull, r)
    | 't' :: 'r' :: 'u' :: 'e' :: r => some (.jbool true, r)
    | 'f' :: 'a' :: 'l' :: 's' :: 'e' :: r => some (.jbool false, r)
    | '"' :: r => (parseStrBody r).map (fun p => (.jstr p.1, p.2))
    | '[' :: r =>
      (match skipWs r with
       | ']' :: r' => some (.jarr [], r')
       | _ => (parseArrItems f r).map (fun p => (.jarr p.1, p.2)))
    | '{' :: r =>
      (match skipWs r with
       | '}' :: r' => some (.jobj [], r')
       | _ => (parseObjItems f r).map (fun p => (.jobj p.1, p.2)))
    | rest => (parseNum rest).map (fun p => (.jnum p.1.1 p.1.2, p.2))

/-- Parse one-or-more comma-separated array items then `]`. -/
def parseArrItems : Nat → List Char → Option (List Json × List Char)
  | 0, _ => none
  | Nat.succ f, s =>
    match parseVal f s with
    | none => none
    | some (v, r) =>
      match skipWs r with
      | ',' :: r' => (parseArrItems f r').map (fun p => (v :: p.1, p.2))
      | ']' :: r' => some ([v], r')
      | _ => none

/-- Parse one-or-more comma-separated object members then `}`. -/
def parseObjItems : Nat → List Char → Option (List (List Char × Json) × List Char)
  | 0, _ => none
  | Nat.succ f, s =>
    match skipWs s with
    | '"' :: r =>
      match parseStrBody r with
      | none => none
      | some (k, r1) =>
        match skipWs r1 with
        | ':' :: r2 =>
          match parseVal f r2 with
          | none => none
          | some (v, r3) =>
            match skipWs r3 with
            | ',' :: r4 => (parseObjItems f r4).map (fun p => ((k, v) :: p.1, p.2))
            | '}' :: r4 => some ([(k, v)], r4)
            | _ => none
        | _ => none
    | _ => none

end

/-- `JSON.parse` on a character list: parse one value and require only
whitespace to remain, otherwise fail (return `none`, modelling the thrown
`SyntaxError`). -/
def parseJson (s : List Char) : Option Json :=
  match parseVal (s.length + 2) s with
  | some (v, rest) => if skipWs rest = [] then some v else none
  | none => none

/-- JS property access `obj.k` for parsed JSON: only objects have fields;
duplicate keys resolve to the last occurrence, as in `JSON.parse`. -/
def jGet (j : Json) (k : List Char) : Option Json :=
  match j with
  | .jobj fs => fs.foldl (fun acc f => if f.1 = k then some f.2 else acc) none
  | _ => none

/-- `parsed.type` when it is a string (`parsed.type === '...'` comparisons
only ever succeed for string values). -/
def jTypeField (j : Json) : Option (List Char) :=
  match jGet j ['t', 'y', 'p', 'e'] with
  | some (.jstr s) => some s
  | _ => none

/-- Decimal rendering of an integer (for JS string coercion of numbers). -/
def intToChars (n : Int) : List Char :=
  (toString n).data

/-- JS coercion used by `assistantResponse += parsed.message || ''`:
falsy values (`undefined`, `null`, `false`, `0`, `""`) contribute the empty
string, every other value is appended via JS `String(...)`. -/
def jsOrEmpty : Option Json → List Char
  | none => []
  | some .jnull => []
  | some (.jbool false) => []
  | some (.jbool true) => ['t', 'r', 'u', 'e']
  | some (.jstr s) => s
  | some (.jnum m e) =>
    if m = 0 then []
    else if e ≥ 0 then intToChars (m * (10 : Int) ^ e.toNat)
    else intToChars m ++ 'e' :: intToChars e
  | some (.jarr _) => []
  | some (.jobj _) => ['[', 'o', 'b', 'j', 'e', 'c', 't', ' ', 'O', 'b', 'j', 'e', 'c', 't', ']']

/-! ## Event Frame Decoder: buffer splitting

`monitorSession` (and the near-identical `ChatPanelManager.streamSSE` /
`streamSse` pumps) accumulate `buffer += decoder.decode(value)`, then run
`const parts = buffer.split('\n\n'); buffer = parts.pop() || ''` and decode
each complete part.  `splitNN` is JS `String.prototype.split('\n\n')`:
left-to-right, non-overlapping matches of the two-newline delimiter. -/

def splitNN : List Char → List (List Char)
  | [] => [[]]
  | '\n' :: '\n' :: rest => [] :: splitNN rest
  | c :: rest =>
    match splitNN rest with
    | s :: ss => (c :: s) :: ss
    | [] => [[c]]

/-- JS `String.prototype.split('\n')` (single-newline delimiter). -/
def splitLines : List Char → List (List Char)
  | [] => [[]]
  | '\n' :: rest => [] :: splitLines rest
  | c :: rest =>
    match splitLines rest with
    | s :: ss => (c :: s) :: ss
    | [] => [[c]]

/-- Total last element of a part list (`split` never returns `[]`, and the
source's `parts.pop() || ''` yields `''` exactly when the popped last part
is the empty string, so the empty default is faithful). -/
def lastPart : List (List Char) → List Char
  | [] => []
  | [a] => a
  | _ :: b :: l => lastPart (b :: l)

/-- All but the last element of the part list (what the `for` loop visits
after `parts.pop()`). -/
def frontParts (ps : List (List Char)) : List (List Char) :=
  ps.dropLast

/-- One buffering step of the pump: append the chunk to the buffer, split on
the blank-line delimiter, emit the complete parts, retain the final
(possibly incomplete) part as the new buffer. -/
def sseFeed (buffer chunk : List Char) : List (List Char) × List Char :=
  let parts := splitNN (buffer ++ chunk)
  (frontParts parts, lastPart parts)

/-- Run the buffering step over a whole sequence of chunks, concatenating
the complete parts emitted by each step; end-of-stream discards the
residual buffer exactly as `if (done) return` does. -/
def sseFeedAll (buffer : List Char) : List (List Char) → List (List Char) × List Char
  | [] => ([], buffer)
  | c :: cs =>
    let fed := sseFeed buffer c
    let rest := sseFeedAll fed.2 cs
    (fed.1 ++ rest.1, rest.2)

/-! ## Frame field extraction

Per part the source runs `const lines = part.split('\n')` and, for each
line, `if (line.startsWith('event:')) event = line.slice(6).trim();
if (line.startsWith('data:')) data += line.slice(5).trim();` with
`event = 'message'` as the default. -/

def evColon : List Char := ['e', 'v', 'e', 'n', 't', ':']

def dataColon : List Char := ['d', 'a', 't', 'a', ':']

/-- Process one frame line, updating the `(event, data)` accumulator. -/
def lineStep (acc : List Char × List Char) (line : List Char) : List Char × List Char :=
  let acc1 := if startsWithL evColon line then (trimL (line.drop 6), acc.2) else acc
  if startsWithL dataColon line then (acc1.1, acc1.2 ++ trimL (line.drop 5)) else acc1

/-- Extract the `(event, data)` fields of a complete frame. -/
def partFields (part : List Char) : List Char × List Char :=
  (splitLines part).foldl lineStep (['m', 'e', 's', 's', 'a', 'g', 'e'], [])

/-- The `data:` payload of a frame, which the source hands to `JSON.parse`. -/
def partData (part : List Char) : List Char :=
  (partFields part).2

/-! ## Decoded stream events

The `StreamEvent` union of the specification, discriminated by the parsed
payload's `type` field.  The `type` strings are the ones the source
dispatches on (`progress`, `content`, `todo_update`, `complete`, `error`);
payload-carrying variants keep the parsed JSON object. -/

inductive StreamEvent where
  | progressEv : Json → StreamEvent
  | contentEv : Json → StreamEvent
  | todoUpdateEv : Json → StreamEvent
  | completeEv : Json → StreamEvent
  | errorEv : Json → StreamEvent

/-- Decode one complete frame into a `StreamEvent`: parse the payload as
JSON and map the `type` discriminator; frames whose payload fails to parse
or carries an unrecognized `type` produce no event. -/
def partToEvent (part : List Char) : Option StreamEvent :=
  match parseJson (partData part) with
  | none => none
  | some j =>
    match jTypeField j with
    | some ['p', 'r', 'o', 'g', 'r', 'e', 's', 's'] => some (.progressEv j)
    | some ['c', 'o', 'n', 't', 'e', 'n', 't'] => some (.contentEv j)
    | some ['t', 'o', 'd', 'o', '_', 'u', 'p', 'd', 'a', 't', 'e'] => some (.todoUpdateEv j)
    | some ['c', 'o', 'm', 'p', 'l', 'e', 't', 'e'] => some (.completeEv j)
    | some ['e', 'r', 'r', 'o', 'r'] => some (.errorEv j)
    | _ => none

/-- The ordered sequence of `StreamEvent`s decoded from a chunked delivery
of the byte stream, starting from an empty buffer. -/
def streamEventsOfChunks (chunks : List (List Char)) : List StreamEvent :=
  (sseFeedAll [] chunks).1.filterMap partToEvent

/-! ## Chunk-invariance of the frame splitter -/

theorem splitNN_ne_nil (x : List Char) : splitNN x ≠ [] := by
  induction x using splitNN.induct <;> simp_all [splitNN]

theorem splitNN_eq_singleton (x : List Char) :
    ∀ s, splitNN x = [s] → s = x := by
  induction x using splitNN.induct with
  | case1 => intro s hs; rw [splitNN.eq_1] at hs; injection hs with h1 _; exact h1.symm
  | case2 rest ih =>
    intro s hs
    rw [splitNN.eq_2] at hs
    injection hs with _ h2
    exact absurd h2 (splitNN_ne_nil rest)
  | case3 c rest hpat s0 ss hrest ih =>
    intro s hs
    rw [splitNN.eq_3 c rest hpat, hrest] at hs
    injection hs with h1 h2
    have hss : ss = [] := h2
    have hs0 : s0 = rest := ih s0 (by rw [hrest, hss])
    rw [← h1, hs0]
  | case4 c rest hpat hrest ih =>
    exact absurd hrest (splitNN_ne_nil rest)

theorem lastPart_cons_of_ne_nil (a : List Char) (l : List (List Char)) (h : l ≠ []) :
    lastPart (a :: l) = lastPart l := by
  cases l with
  | nil => exact absurd rfl h
  | cons b l' => rfl

theorem frontParts_cons_of_ne_nil (a : List Char) (l : List (List Char)) (h : l ≠ []) :
    frontParts (a :: l) = a :: frontParts l := by
  cases l with
  | nil => exact absurd rfl h
  | cons b l' => rfl

theorem lastPart_append (A B : List (List Char)) (h : B ≠ []) :
    lastPart (A ++ B) = lastPart B := by
  induction A with
  | nil => rfl
  | cons a A' ih =>
    rw [List.cons_append, lastPart_cons_of_ne_nil _ _ (by simp [h]), ih]

theorem frontParts_append (A B : List (List Char)) (h : B ≠ []) :
    frontParts (A ++ B) = A ++ frontParts B := by
  induction A with
  | nil => rfl
  | cons a A' ih =>
    rw [List.cons_append, frontParts_cons_of_ne_nil _ _ (by simp [h]), ih,
      List.cons_append]

/-- Reduced form of the no-delimiter-at-head case of `splitNN`. -/
theorem splitNN_cons_eq (c : Char) (rest : List Char)
    (hpat : ∀ r1, c = '\n' → rest = '\n' :: r1 → False)
    (s : List Char) (ss : List (List Char)) (h : splitNN rest = s :: ss) :
    splitNN (c :: rest) = (c :: s) :: ss := by
  rw [splitNN.eq_3 c rest hpat, h]

/-- The retained buffer (the last split segment) contains no blank-line
delimiter: splitting it again leaves it whole. -/
theorem splitNN_lastPart (x : List Char) :
    splitNN (lastPart (splitNN x)) = [lastPart (splitNN x)] := by
  induction x using splitNN.induct with
  | case1 => rfl
  | case2 rest ih =>
    rw [splitNN.eq_2, lastPart_cons_of_ne_nil _ _ (splitNN_ne_nil rest)]
    exact ih
  | case3 c rest hpat s0 ss hrest ih =>
    rw [splitNN_cons_eq c rest hpat s0 ss hrest]
    cases ss with
    | nil =>
      have hs0 : s0 = rest := splitNN_eq_singleton rest s0 hrest
      subst hs0
      show splitNN (c :: s0) = [c :: s0]
      exact splitNN_cons_eq c s0 hpat s0 [] hrest
    | cons t ss' =>
      show splitNN (lastPart (t :: ss')) = [lastPart (t :: ss')]
      rw [hrest] at ih
      exact ih
  | case4 c rest hpat hrest ih =>
    exact absurd hrest (splitNN_ne_nil rest)

/-- Splitting a concatenation: the complete parts of `x` are emitted as-is,
and the retained last segment of `x` recombines with `y`.  This is the key
associativity fact behind chunk-boundary invariance. -/
theorem splitNN_append (x y : List Char) :
    splitNN (x ++ y) =
      frontParts (splitNN x) ++ splitNN (lastPart (splitNN x) ++ y) := by
  induction x using splitNN.induct with
  | case1 => simp [splitNN, frontParts, lastPart]
  | case2 rest ih =>
    rw [show ('\n' :: '\n' :: rest) ++ y = '\n' :: '\n' :: (rest ++ y) from rfl,
      splitNN.eq_2, splitNN.eq_2, ih,
      frontParts_cons_of_ne_nil _ _ (splitNN_ne_nil rest),
      lastPart_cons_of_ne_nil _ _ (splitNN_ne_nil rest), List.cons_append]
  | case3 c rest hpat s0 ss hrest ih =>
    cases rest with
    | nil =>
      rw [show splitNN [c] = [[c]] from splitNN_cons_eq c [] hpat [] [] rfl]
      simp [frontParts, lastPart]
    | cons d rest' =>
      have hpat' : ∀ r1, c = '\n' → d :: (rest' ++ y) = '\n' :: r1 → False := by
        intro r1 hc hd
        injection hd with hd1 _
        exact hpat rest' hc (by rw [hd1])
      rw [List.cons_append] at ih
      rw [List.cons_append, List.cons_append]
      cases ss with
      | nil =>
        have hs0 : s0 = d :: rest' := splitNN_eq_singleton _ s0 hrest
        rw [splitNN_cons_eq c _ hpat s0 _ hrest]
        show splitNN (c :: d :: (rest' ++ y)) = [] ++ splitNN ((c :: s0) ++ y)
        rw [hs0, List.nil_append, List.cons_append, List.cons_append]
      | cons t ss' =>
        have hmid : splitNN (d :: (rest' ++ y)) =
            s0 :: (frontParts (t :: ss') ++ splitNN (lastPart (t :: ss') ++ y)) := by
          rw [ih, hrest]; rfl
        rw [splitNN_cons_eq c _ hpat' s0 _ hmid,
          splitNN_cons_eq c _ hpat s0 _ hrest]
        rfl
  | case4 c rest hpat hrest ih =>
    exact absurd hrest (splitNN_ne_nil rest)

/-- Feeding a concatenated chunk is the same as feeding its halves in
sequence. -/
theorem sseFeed_append (b u v : List Char) :
    sseFeed b (u ++ v) =
      ((sseFeed b u).1 ++ (sseFeed (sseFeed b u).2 v).1,
        (sseFeed (sseFeed b u).2 v).2) := by
  unfold sseFeed
  simp only []
  rw [← List.append_assoc, splitNN_append (b ++ u) v,
    frontParts_append _ _ (splitNN_ne_nil _),
    lastPart_append _ _ (splitNN_ne_nil _)]

/-- A buffer that splits to itself (contains no delimiter) lets
`sseFeedAll` collapse to a single feed of the joined chunks. -/
theorem sseFeedAll_eq_join (cs : List (List Char)) :
    ∀ b, splitNN b = [b] → sseFeedAll b cs = sseFeed b cs.flatten := by
  induction cs with
  | nil =>
    intro b hb
    show ([], b) = sseFeed b []
    unfold sseFeed
    rw [List.append_nil, hb]
    rfl
  | cons c cs' ih =>
    intro b hb
    show ((sseFeed b c).1 ++ (sseFeedAll (sseFeed b c).2 cs').1,
        (sseFeedAll (sseFeed b c).2 cs').2) = sseFeed b (c ++ cs'.flatten)
    rw [ih (sseFeed b c).2 (splitNN_lastPart (b ++ c)), sseFeed_append b c cs'.flatten]

/-- **Claim C4 core**: delivering a stream in any sequence of chunks
produces exactly the complete frames of the whole stream, with the same
retained remainder. -/
theorem sseFeedAll_join (cs : List (List Char)) :
    sseFeedAll [] cs = sseFeed [] cs.flatten :=
  sseFeedAll_eq_join cs [] rfl

/-! ## Session Monitor (`monitorSession` in `ai-session.ts`)

The pump loop: on each iteration it first checks the cancellation token
(issuing a `stop` request and throwing `'User cancelled'` when signalled),
then performs one read; `if (done) return` ends the monitor normally; the
decoded complete frames are dispatched on the parsed payload's `type`. -/

/-- JS `String(x)` as used by the `+` concatenation in
`'Progress: ' + parsed.message`. -/
def jsPlusString : Option Json → List Char
  | none => "undefined".data
  | some .jnull => "null".data
  | some (.jbool true) => "true".data
  | some (.jbool false) => "false".data
  | some (.jstr s) => s
  | some (.jnum m e) =>
    if e ≥ 0 then intToChars (m * (10 : Int) ^ e.toNat)
    else intToChars m ++ 'e' :: intToChars e
  | some (.jarr _) => []
  | some (.jobj _) => "[object Object]".data

/-- Observable side effects of the monitor, in program order. -/
inductive MEvent where
  | progressReport : Option Json → MEvent
  | outputLine : List Char → MEvent
  | chatMessage : List Char → List Char → MEvent
  | stopRequest : List Char → MEvent

/-- The branch the per-frame `if`/`else if` chain selects for one complete
frame.  `errorA` records the `throw new Error(parsed.message)` branch: that
throw happens inside the same `try` whose `catch (e) { /* Ignore parse
errors */ }` surrounds the whole dispatch, so it is swallowed on the spot
and the loop continues with the next frame. -/
inductive PartAct where
  | progressA : Option Json → PartAct
  | completeA : PartAct
  | contentA : List Char → PartAct
  | errorA : Option Json → PartAct
  | skipA : PartAct

/-- Classify one complete frame exactly as the source's parse-and-dispatch
does: `JSON.parse` failure selects no branch (`skipA`), and the `type`
comparisons only ever match string-valued discriminators. -/
def partAct (part : List Char) : PartAct :=
  match parseJson (partData part) with
  | none => .skipA
  | some j =>
    match jTypeField j with
    | some ['p', 'r', 'o', 'g', 'r', 'e', 's', 's'] =>
      .progressA (jGet j "message".data)
    | some ['c', 'o', 'm', 'p', 'l', 'e', 't', 'e'] => .completeA
    | some ['c', 'o', 'n', 't', 'e', 'n', 't'] =>
      .contentA (jsOrEmpty (jGet j "message".data))
    | some ['e', 'r', 'r', 'o', 'r'] => .errorA (jGet j "message".data)
    | _ => .skipA

/-- Monitor-visible session state: the accumulated assistant response
buffer and the ordered log of observable calls. -/
structure PumpState where
  resp : List Char
  events : List MEvent

/-- Apply one complete frame to the monitor state.  Returns the new state
and whether the frame was terminal (`complete` returns from the pump).
`contentA` appends to (never replaces) the response buffer; `completeA`
flushes the buffer as a single chat message when it is nonempty; `errorA`
is a net no-op because its throw is swallowed by the frame's own catch. -/
def processPart (st : PumpState) (part : List Char) : PumpState × Bool :=
  match partAct part with
  | .progressA m =>
    ({ st with events :=
        st.events ++ [.progressReport m, .outputLine ("Progress: ".data ++ jsPlusString m)] },
      false)
  | .completeA =>
    (if st.resp ≠ [] then
        { st with events := st.events ++ [.chatMessage "assistant".data st.resp] }
      else st, true)
  | .contentA s => ({ st with resp := st.resp ++ s }, false)
  | .errorA _ => (st, false)
  | .skipA => (st, false)

/-- Run the `for (const part of parts)` loop; a terminal frame returns
immediately, applying none of the remaining frames. -/
def runParts (st : PumpState) : List (List Char) → PumpState × Bool
  | [] => (st, false)
  | p :: ps =>
    let pr := processPart st p
    if pr.2 then (pr.1, true) else runParts pr.1 ps

/-- How one pump run ends: a terminal `complete` frame, transport
end-of-stream (`if (done) return`), or cancellation. -/
inductive PumpResult where
  | completedEv : PumpResult
  | endOfStream : PumpResult
  | cancelled : PumpResult
deriving DecidableEq

/-- The recursive pump.  `cancelAt i` is the cancellation token's state
when iteration `i` checks it (cooperative: checked once per iteration,
before the read). -/
def runPumpAux (cancelAt : Nat → Bool) (sid : List Char) :
    List (List Char) → Nat → List Char → PumpState → PumpState × PumpResult
  | chunks, i, buf, st =>
    if cancelAt i then
      ({ st with events := st.events ++ [.stopRequest sid] }, .cancelled)
    else
      match chunks with
      | [] => (st, .endOfStream)
      | c :: cs =>
        let fed := sseFeed buf c
        let pr := runParts st fed.1
        if pr.2 then (pr.1, .completedEv)
        else runPumpAux cancelAt sid cs (i + 1) fed.2 pr.1

/-- `monitorSession` after a successful SSE connect: run the pump from an
empty buffer and empty state; cancellation surfaces as the thrown
`'User cancelled'` error, the other two endings return normally. -/
def monitorSession (cancelAt : Nat → Bool) (sid : List Char)
    (chunks : List (List Char)) : PumpState × Except (List Char) PumpResult :=
  let r := runPumpAux cancelAt sid chunks 0 [] ⟨[], []⟩
  (r.1, match r.2 with
    | .cancelled => .error "User cancelled".data
    | other => .ok other)

/-- The chat messages (`chatProvider.addMessage` calls) among a monitor
run's effects — the sink messages of the specification. -/
def chatMessagesOf (evs : List MEvent) : List (List Char × List Char) :=
  evs.filterMap fun e =>
    match e with
    | .chatMessage role content => some (role, content)
    | _ => none

/-- The stop requests among a monitor run's effects. -/
def stopRequestsOf (evs : List MEvent) : List (List Char) :=
  evs.filterMap fun e =>
    match e with
    | .stopRequest sid => some sid
    | _ => none

/-! ## Artifact Materializer (`downloadArtifacts` in `file-manager.ts`) -/

structure Artifact where
  path : List Char
  content : List Char
deriving DecidableEq

/-- Filesystem operations the materializer can issue.  The source writes
every artifact with `Buffer.from(artifact.content, 'utf-8')`; the binary
variant exists so that the specification's claimed binary-write behaviour
is statable, and is never produced by the code. -/
inductive FsOp where
  | mkdir : List Char → FsOp
  | writeFileUtf8 : List Char → List Char → FsOp
  | writeFileBinary : List Char → List Char → FsOp
deriving DecidableEq

/-- The regex replace `artifact.path.replace(/^output\x2f/, '')`: strip one
leading `output/` when present. -/
def stripOutputOnce (p : List Char) : List Char :=
  if startsWithL "output/".data p then p.drop 7 else p

/-- `vscode.Uri.joinPath(filePath, '..')`: the parent directory (drop the
final path segment). -/
def parentDir (p : List Char) : List Char :=
  ((p.reverse.dropWhile (fun c => c ≠ '/')).drop 1).reverse

/-- The write path of one artifact: under the `output` directory of the
workspace root, with any leading `output/` prefix stripped. -/
def artifactWritePath (wsRoot : List Char) (a : Artifact) : List Char :=
  (wsRoot ++ "/output".data) ++ '/' :: stripOutputOnce a.path

/-- `downloadArtifacts` given the fetched artifact list: empty list means
count 0 and no filesystem operations; otherwise create the output
directory, then for each artifact create its parent directory and write
its content as UTF-8 text, returning `data.artifacts.length`. -/
def downloadArtifacts (wsRoot : List Char) (artifacts : List Artifact) :
    Nat × List FsOp :=
  if artifacts = [] then (0, [])
  else
    (artifacts.length,
      FsOp.mkdir (wsRoot ++ "/output".data) ::
        artifacts.flatMap fun a =>
          [FsOp.mkdir (parentDir (artifactWritePath wsRoot a)),
            FsOp.writeFileUtf8 (artifactWritePath wsRoot a) a.content])

/-- JS `String.prototype.endsWith(suf)` on character lists. -/
def endsWithL (suf s : List Char) : Bool :=
  startsWithL suf.reverse s.reverse

/-- The fixed binary extension allow-list appearing in the repository
(`categorizeFiles` in `project-tree-provider.ts`). -/
def binaryExtensions : List (List Char) :=
  [".uf2".data, ".bin".data, ".hex".data, ".elf".data]

/-- Modelled from the spec: "binary artifacts via the extension-driven
binary allow-list, text otherwise" — the write-encoding the specification
claims the materializer selects per artifact path.  No such selection
exists in `downloadArtifacts`; this definition exists only to compare the
claim against the code. -/
def specIsBinaryArtifact (p : List Char) : Bool :=
  binaryExtensions.any fun e => endsWithL e p

/-! ## API error classification (`apiFetch` in `api.ts`) -/

/-- How a non-OK response surfaces to the caller. -/
inductive ApiOutcome where
  | success : ApiOutcome
  | authFailed : Nat → List Char → ApiOutcome
  | remoteError : Nat → List Char → ApiOutcome
deriving DecidableEq

/-- The body substrings (checked on the lowercased text) that make a
401/403 clear the stored key: the source tests `expired`, `invalid`,
`unauthorized` and also `access denied`. -/
def authPatterns : List (List Char) :=
  ["expired".data, "invalid".data, "unauthorized".data, "access denied".data]

/-- The error-handling tail of `apiFetch`: `res.ok` (status in 200–299)
passes the response through; a 401/403 whose lowercased body contains one
of the `authPatterns` deletes the stored API key and throws the
authentication failure; every other non-OK response throws
`` `${res.status} ${text}` `` and leaves the key alone.  The returned
`Bool` records whether `context.secrets.delete` ran. -/
def handleApiResponse (status : Nat) (text : List Char) : ApiOutcome × Bool :=
  if 200 ≤ status ∧ status < 300 then (.success, false)
  else if (status = 401 ∨ status = 403) ∧
      (authPatterns.any fun p => hasSub p (toLowerL text)) then
    (.authFailed status text, true)
  else (.remoteError status text, false)

/-! ## Execution Context Manager (`project-manager.ts`) -/

/-- The JS truthiness test `if (!projectId)` on the persisted handle. -/
def isTruthyHandle : Option (List Char) → Bool
  | some pid => pid != []
  | none => false

/-- `getEphemeralProject`: return the persisted handle when present
(truthy), otherwise call the creation endpoint, persist and return the new
id.  The result carries the project id, the persisted handle afterwards,
and the number of remote creation calls made; a failing remote call
propagates (there is no catch here). -/
def getEphemeralProject (remoteCreate : Except (List Char) (List Char))
    (handle : Option (List Char)) :
    Except (List Char) (List Char × Option (List Char) × Nat) :=
  if isTruthyHandle handle then .ok (handle.getD [], handle, 0)
  else
    match remoteCreate with
    | .error e => .error e
    | .ok pid => .ok (pid, some pid, 1)

/-- `cleanupEphemeralProject`: best-effort remote teardown inside a
`try`/`catch`.  On success the persisted handle is cleared; on failure the
catch logs `'Failed to cleanup project: ' + e` (JS renders the thrown
`Error` as `Error: <message>`) and the handle is left untouched.  The
function never throws: its total return type is the embedded form of the
surrounding catch. -/
def cleanupEphemeralProject (remoteCleanup : Except (List Char) Unit)
    (projectId : List Char) (handle : Option (List Char)) :
    Option (List Char) × List (List Char) :=
  match remoteCleanup with
  | .ok _ =>
    (none,
      ["Cleaning up ephemeral project: ".data ++ projectId,
        "Ephemeral project cleaned up".data])
  | .error e =>
    (handle,
      ["Cleaning up ephemeral project: ".data ++ projectId,
        "Failed to cleanup project: Error: ".data ++ e])

/-! ## Orchestrator epilogue (`startAISession` after the dispatch) -/

/-- Effects of the post-monitor phase of `startAISession`. -/
inductive OrchEffect where
  | artifactFetch : List Char → OrchEffect
  | fsOp : FsOp → OrchEffect
  | infoMessage : List Char → OrchEffect
  | errorLine : List Char → OrchEffect
  | errorMessage : List Char → OrchEffect
  | chatError : List Char → OrchEffect
  | cleanupCall : List Char → OrchEffect
deriving DecidableEq

/-- The tail of `startAISession`'s `withProgress` callback, from the
`monitorSession` call onward: on normal monitor return it fetches and
materializes the artifacts and, when at least one was downloaded, shows
the success message and tears down the ephemeral project; a thrown
`'User cancelled'` is swallowed silently by the catch, while any other
thrown message is logged, shown, and appended to the chat. -/
def sessionEpilogue (monitorResult : Except (List Char) PumpResult)
    (sid wsRoot : List Char) (artifacts : List Artifact)
    (cleanupRemote : Except (List Char) Unit) (projectId : List Char)
    (handle : Option (List Char)) :
    List OrchEffect × Option (List Char) :=
  match monitorResult with
  | .ok _ =>
    let dl := downloadArtifacts wsRoot artifacts
    let effects := OrchEffect.artifactFetch sid :: dl.2.map OrchEffect.fsOp
    if dl.1 > 0 then
      let cl := cleanupEphemeralProject cleanupRemote projectId handle
      (effects ++
        [OrchEffect.infoMessage
            ("Session complete! Downloaded artifacts to output/".data),
          OrchEffect.cleanupCall projectId],
        cl.1)
    else (effects, handle)
  | .error m =>
    if m = "User cancelled".data then ([], handle)
    else
      ([OrchEffect.errorLine ("ERROR: ".data ++ m),
        OrchEffect.errorMessage ("Session failed: ".data ++ m),
        OrchEffect.chatError ("Error: ".data ++ m)], handle)

/-! ## Concrete frames used in witnesses and counterexamples -/

/-- A terminal-failure frame: `data: {"type":"error","message":"boom"}`. -/
def errFrame : List Char :=
  "data: \x7b\"type\":\"error\",\"message\":\"boom\"\x7d".data

/-- A content frame carrying `"Hello, "`. -/
def helloFrame : List Char :=
  "data: \x7b\"type\":\"content\",\"message\":\"Hello, \"\x7d".data

/-- A content frame carrying `"world!"`. -/
def worldFrame : List Char :=
  "data: \x7b\"type\":\"content\",\"message\":\"world!\"\x7d".data

/-- A terminal-success frame: `data: {"type":"complete"}`. -/
def compFrame : List Char :=
  "data: \x7b\"type\":\"complete\"\x7d".data

/-- A frame whose payload is not valid JSON. -/
def badJsonFrame : List Char := "data: not json".data

/-- The blank-line frame delimiter. -/
def nl2 : List Char := "\n\n".data

/-- A single chunk carrying an error frame, then a content frame, then a
complete frame. -/
def errorThenCompleteChunk : List Char :=
  errFrame ++ nl2 ++ helloFrame ++ nl2 ++ compFrame ++ nl2

/-! ## Monitor lemmas -/

/-- A frame whose payload fails `JSON.parse` selects no dispatch branch. -/
theorem partAct_of_parse_none (p : List Char)
    (h : parseJson (partData p) = none) : partAct p = .skipA := by
  unfold partAct
  rw [h]

/-- Unfolding equation for one step of the part loop. -/
theorem runParts_cons (st : PumpState) (x : List Char) (ps : List (List Char)) :
    runParts st (x :: ps) =
      (if (processPart st x).2 then ((processPart st x).1, true)
        else runParts (processPart st x).1 ps) := rfl

/-- Non-terminal result of `runParts` lets an appended list continue. -/
theorem runParts_append (xs ys : List (List Char)) :
    ∀ st, runParts st (xs ++ ys) =
      (if (runParts st xs).2 then runParts st xs
        else runParts (runParts st xs).1 ys) := by
  induction xs with
  | nil => intro st; simp [runParts]
  | cons x xs' ih =>
    intro st
    rw [List.cons_append, runParts_cons, runParts_cons]
    cases h : (processPart st x).2 with
    | true => simp
    | false => simp only [Bool.false_eq_true, if_false]; exact ih (processPart st x).1

/-- A run over content frames only: each payload is appended (never
replacing) to the response buffer, nothing is forwarded to the sink, and
no terminal state is reached. -/
theorem runParts_contents (parts ss : List (List Char))
    (h : List.Forall₂ (fun p s => partAct p = .contentA s) parts ss) :
    ∀ st, runParts st parts = ({ st with resp := st.resp ++ ss.flatten }, false) := by
  induction h with
  | nil => intro st; simp [runParts]
  | cons hps hrest ih =>
    intro st
    unfold runParts processPart
    rw [hps]
    simp only [Bool.false_eq_true, if_false]
    rw [ih]
    simp [List.append_assoc]

/-- Frames that never dispatch to the `complete` branch cannot terminate
the part loop. -/
theorem runParts_no_complete (parts : List (List Char))
    (h : ∀ p ∈ parts, partAct p ≠ .completeA) :
    ∀ st, (runParts st parts).2 = false := by
  induction parts with
  | nil => intro st; rfl
  | cons p ps ih =>
    intro st
    unfold runParts processPart
    cases hp : partAct p with
    | completeA => exact absurd hp (h p (List.mem_cons_self p ps))
    | progressA m => exact ih (fun q hq => h q (List.mem_cons_of_mem p hq)) _
    | contentA s => exact ih (fun q hq => h q (List.mem_cons_of_mem p hq)) _
    | errorA m => exact ih (fun q hq => h q (List.mem_cons_of_mem p hq)) _
    | skipA => exact ih (fun q hq => h q (List.mem_cons_of_mem p hq)) _

/-- Without cancellation the pump can only end in `completedEv` or
`endOfStream` — there is no failure ending at all. -/
theorem runPumpAux_never_cancelled (sid : List Char) (chunks : List (List Char)) :
    ∀ (i : Nat) (buf : List Char) (st : PumpState),
      (runPumpAux (fun _ => false) sid chunks i buf st).2 ≠ .cancelled := by
  induction chunks with
  | nil => intro i buf st h; exact PumpResult.noConfusion h
  | cons c cs ih =>
    intro i buf st
    show (if (runParts st (sseFeed buf c).1).2 then
        ((runParts st (sseFeed buf c).1).1, PumpResult.completedEv)
      else runPumpAux (fun _ => false) sid cs (i + 1) (sseFeed buf c).2
        (runParts st (sseFeed buf c).1).1).2 ≠ .cancelled
    cases h : (runParts st (sseFeed buf c).1).2 with
    | true => simp
    | false =>
      simp only [Bool.false_eq_true, if_false]
      exact ih (i + 1) (sseFeed buf c).2 (runParts st (sseFeed buf c).1).1

/-- When no decoded frame of the whole delivery dispatches to `complete`,
the pump runs to end-of-stream and returns normally. -/
theorem runPumpAux_no_terminal (sid : List Char) (chunks : List (List Char)) :
    ∀ (i : Nat) (buf : List Char) (st : PumpState),
      (∀ p ∈ (sseFeedAll buf chunks).1, partAct p ≠ .completeA) →
      (runPumpAux (fun _ => false) sid chunks i buf st).2 = .endOfStream := by
  induction chunks with
  | nil => intro i buf st _; rfl
  | cons c cs ih =>
    intro i buf st h
    have hfed : ∀ p ∈ (sseFeed buf c).1, partAct p ≠ .completeA := by
      intro p hp
      exact h p (by
        show p ∈ ((sseFeed buf c).1 ++ (sseFeedAll (sseFeed buf c).2 cs).1)
        exact List.mem_append_left _ hp)
    have hrest : ∀ p ∈ (sseFeedAll (sseFeed buf c).2 cs).1, partAct p ≠ .completeA := by
      intro p hp
      exact h p (by
        show p ∈ ((sseFeed buf c).1 ++ (sseFeedAll (sseFeed buf c).2 cs).1)
        exact List.mem_append_right _ hp)
    show (if (runParts st (sseFeed buf c).1).2 then
        ((runParts st (sseFeed buf c).1).1, PumpResult.completedEv)
      else runPumpAux (fun _ => false) sid cs (i + 1) (sseFeed buf c).2
        (runParts st (sseFeed buf c).1).1).2 = .endOfStream
    rw [runParts_no_complete _ hfed st]
    simp only [Bool.false_eq_true, if_false]
    exact ih (i + 1) (sseFeed buf c).2 (runParts st (sseFeed buf c).1).1 hrest

/-! ## Claim theorems -/

/-- **C4.** For every way of splitting a byte stream into successive
chunks, the Event Frame Decoder — buffer, split on the blank-line
delimiter, retain the final possibly-incomplete segment — produces the
same ordered sequence of decoded `StreamEvent`s as decoding the whole
stream delivered in a single chunk. -/
theorem claim_C4_decoder_chunk_invariance (cs : List (List Char)) :
    streamEventsOfChunks cs = streamEventsOfChunks [cs.flatten] := by
  unfold streamEventsOfChunks
  rw [sseFeedAll_join]
  rw [show sseFeedAll [] [cs.flatten] =
      ((sseFeed [] cs.flatten).1 ++ [], (sseFeed [] cs.flatten).2) from rfl]
  rw [List.append_nil]

/-- **C1.** Claim: on an `Error{message}` frame the monitor returns
`Failed(message)` immediately, with no further frames applied.  The code
does not: the `throw new Error(parsed.message)` sits inside the `try`
whose `catch` is meant for JSON parse errors, so the throw is swallowed.
On the failing input — an error frame, then a content frame, then a
complete frame — the monitor classifies the first frame as the error
branch, yet still applies the later frames (the content is flushed to the
sink at complete) and returns the success outcome instead of failing. -/
theorem claim_C1_error_frame_swallowed :
    partAct errFrame = .errorA (some (.jstr "boom".data)) ∧
    (monitorSession (fun _ => false) "sess-1".data [errorThenCompleteChunk]).2 =
      .ok .completedEv ∧
    chatMessagesOf
        (monitorSession (fun _ => false) "sess-1".data [errorThenCompleteChunk]).1.events =
      [("assistant".data, "Hello, ".data)] :=
  ⟨rfl, rfl, rfl⟩

/-- **C2 (counterexample).** Claim: end-of-stream before any terminal
event yields `Failed("stream closed unexpectedly")`.  On the concrete
input of a stream that ends immediately (no chunks before `done`), the
monitor instead returns normally (`if (done) return`), a success
outcome. -/
theorem claim_C2_counterexample :
    (monitorSession (fun _ => false) "sess-2".data []).2 ≠
        Except.error "stream closed unexpectedly".data ∧
    (monitorSession (fun _ => false) "sess-2".data []).2 = .ok .endOfStream :=
  ⟨(fun hcontra => nomatch hcontra), rfl⟩

/-- **C2 (amended).** When the transport reports end-of-stream before any
decoded frame has dispatched to the terminal `complete` branch, the
monitor returns a success outcome (a plain return), not
`Failed("stream closed unexpectedly")` — the code has no failure path for
a silently closed stream. -/
theorem claim_C2_amended (sid : List Char) (chunks : List (List Char))
    (h : ∀ p ∈ (sseFeedAll [] chunks).1, partAct p ≠ .completeA) :
    (monitorSession (fun _ => false) sid chunks).2 = .ok .endOfStream := by
  have hp := runPumpAux_no_terminal sid chunks 0 [] ⟨[], []⟩ h
  show (match (runPumpAux (fun _ => false) sid chunks 0 [] ⟨[], []⟩).2 with
    | PumpResult.cancelled => Except.error "User cancelled".data
    | other => Except.ok other) = Except.ok PumpResult.endOfStream
  rw [hp]

/-- Witness for C2 (amended): a stream holding one content frame and then
closing returns the success outcome. -/
theorem claim_C2_witness :
    (∀ p ∈ (sseFeedAll [] [helloFrame ++ nl2]).1, partAct p ≠ PartAct.completeA) ∧
    (monitorSession (fun _ => false) "sess-2w".data [helloFrame ++ nl2]).2 =
      .ok .endOfStream := by
  have hh : ∀ p ∈ (sseFeedAll [] [helloFrame ++ nl2]).1, partAct p ≠ PartAct.completeA := by
    intro p hp
    rw [show (sseFeedAll [] [helloFrame ++ nl2]).1 = [helloFrame] from rfl,
      List.mem_singleton] at hp
    subst hp
    rw [show partAct helloFrame = .contentA "Hello, ".data from rfl]
    intro hcon
    exact PartAct.noConfusion hcon
  exact ⟨hh, claim_C2_amended _ _ hh⟩

/-- **C3.** A sequence of Content frames followed by a Complete frame:
each payload is appended (never replacing) to the response buffer, and
exactly one combined chat message is forwarded to the sink, only at
Complete. -/
theorem claim_C3_single_flush (parts ss : List (List Char)) (comp : List Char)
    (hss : List.Forall₂ (fun p s => partAct p = .contentA s) parts ss)
    (hcomp : partAct comp = .completeA)
    (hne : ss.flatten ≠ []) :
    runParts ⟨[], []⟩ (parts ++ [comp]) =
      ({ resp := ss.flatten,
         events := [.chatMessage "assistant".data ss.flatten] }, true) := by
  rw [runParts_append, runParts_contents parts ss hss]
  simp only [Bool.false_eq_true, if_false, List.nil_append]
  rw [runParts_cons]
  unfold processPart
  rw [hcomp]
  simp [hne]

/-- Witness for C3: the Content payloads `"Hello, "`, `"world!"` followed
by Complete yield exactly one sink message `"Hello, world!"`. -/
theorem claim_C3_witness :
    partAct helloFrame = .contentA "Hello, ".data ∧
    partAct worldFrame = .contentA "world!".data ∧
    partAct compFrame = .completeA ∧
    runParts ⟨[], []⟩ ([helloFrame, worldFrame] ++ [compFrame]) =
      ({ resp := "Hello, world!".data,
         events := [.chatMessage "assistant".data "Hello, world!".data] }, true) := by
  refine ⟨rfl, rfl, rfl, ?_⟩
  exact claim_C3_single_flush [helloFrame, worldFrame]
    ["Hello, ".data, "world!".data] compFrame
    (List.Forall₂.cons rfl (List.Forall₂.cons rfl List.Forall₂.nil))
    rfl (by decide)

/-- **C5.** A monitor invoked with the cancellation token already
signalled before the first read issues exactly one remote stop request
for the session, surfaces the `'User cancelled'` outcome (Stopped), and
applies zero events to session state — regardless of what bytes the
transport would have delivered. -/
theorem claim_C5_precancelled (cancelAt : Nat → Bool) (sid : List Char)
    (chunks : List (List Char)) (h : cancelAt 0 = true) :
    monitorSession cancelAt sid chunks =
      (⟨[], [.stopRequest sid]⟩, .error "User cancelled".data) := by
  have hp : runPumpAux cancelAt sid chunks 0 [] ⟨[], []⟩ =
      (⟨[], [.stopRequest sid]⟩, .cancelled) := by
    rw [runPumpAux.eq_def]
    simp [h]
  show ((runPumpAux cancelAt sid chunks 0 [] ⟨[], []⟩).1,
    match (runPumpAux cancelAt sid chunks 0 [] ⟨[], []⟩).2 with
    | PumpResult.cancelled => Except.error "User cancelled".data
    | other => Except.ok other) = _
  rw [hp]

/-- Witness for C5: an always-signalled token with a nonempty pending
stream stops immediately with exactly the one stop request. -/
theorem claim_C5_witness :
    (fun _ : Nat => true) 0 = true ∧
    monitorSession (fun _ => true) "sess-5".data [errorThenCompleteChunk] =
      (⟨[], [.stopRequest "sess-5".data]⟩, .error "User cancelled".data) :=
  ⟨rfl, claim_C5_precancelled (fun _ => true) "sess-5".data [errorThenCompleteChunk] rfl⟩

/-- **C8.** A frame whose `data:` payload is not valid JSON is dropped
without terminating the stream or changing monitor state: the run over
any frame list with the bad frame removed is identical. -/
theorem claim_C8_bad_frame_dropped (st : PumpState) (bad : List Char)
    (pre post : List (List Char)) (h : parseJson (partData bad) = none) :
    runParts st (pre ++ bad :: post) = runParts st (pre ++ post) := by
  induction pre generalizing st with
  | nil =>
    show runParts st (bad :: post) = runParts st post
    rw [runParts_cons]
    rw [show processPart st bad = (st, false) from by
      unfold processPart; rw [partAct_of_parse_none bad h]]
    simp
  | cons q pre' ih =>
    rw [List.cons_append, List.cons_append, runParts_cons, runParts_cons]
    cases hq : (processPart st q).2 with
    | true => simp
    | false => simp only [Bool.false_eq_true, if_false]; exact ih _

/-- Witness for C8: a non-JSON frame followed by a valid Complete frame
behaves exactly like the Complete frame alone, and the monitor still
returns the completed outcome. -/
theorem claim_C8_witness :
    parseJson (partData badJsonFrame) = none ∧
    runParts ⟨[], []⟩ ([] ++ badJsonFrame :: [compFrame]) =
      runParts ⟨[], []⟩ ([] ++ [compFrame]) ∧
    (monitorSession (fun _ => false) "sess-8".data
        [badJsonFrame ++ nl2 ++ compFrame ++ nl2]).2 = .ok .completedEv :=
  ⟨rfl, claim_C8_bad_frame_dropped ⟨[], []⟩ badJsonFrame [] [compFrame] rfl, rfl⟩

/-- **C6 (counterexample).** Claim: binary artifacts (per the fixed
extension allow-list) are written via a binary write.  For the concrete
artifact `output/firmware.uf2` — whose stripped path is on the binary
allow-list — `downloadArtifacts` emits a plain UTF-8 text write (there is
no binary branch in the code). -/
theorem claim_C6_counterexample :
    specIsBinaryArtifact (stripOutputOnce "output/firmware.uf2".data) = true ∧
    (downloadArtifacts "/ws".data [⟨"output/firmware.uf2".data, "BIN".data⟩]).2 =
      [FsOp.mkdir "/ws/output".data,
        FsOp.mkdir "/ws/output".data,
        FsOp.writeFileUtf8 "/ws/output/firmware.uf2".data "BIN".data] :=
  ⟨rfl, rfl⟩

/-- **C6 (amended).** `downloadArtifacts`: an empty fetched list returns
count 0 with no filesystem operation; otherwise every artifact gets its
parent directory created and its content written — always as UTF-8 text,
never via a binary write — at the destination path obtained by stripping
a leading `output/` prefix, and the returned count is the artifact-list
length. -/
theorem claim_C6_amended (wsRoot : List Char) (arts : List Artifact) :
    (downloadArtifacts wsRoot arts).1 = arts.length ∧
    (arts = [] → (downloadArtifacts wsRoot arts).2 = []) ∧
    (∀ a ∈ arts,
      FsOp.mkdir (parentDir (artifactWritePath wsRoot a)) ∈
        (downloadArtifacts wsRoot arts).2 ∧
      FsOp.writeFileUtf8 (artifactWritePath wsRoot a) a.content ∈
        (downloadArtifacts wsRoot arts).2) ∧
    (∀ p c, FsOp.writeFileBinary p c ∉ (downloadArtifacts wsRoot arts).2) := by
  unfold downloadArtifacts
  by_cases h : arts = []
  · subst h; simp
  · rw [if_neg h]
    refine ⟨rfl, fun hc => absurd hc h, ?_, ?_⟩
    · intro a ha
      constructor
      · exact List.mem_cons_of_mem _
          (List.mem_flatMap.mpr ⟨a, ha, by simp⟩)
      · exact List.mem_cons_of_mem _
          (List.mem_flatMap.mpr ⟨a, ha, by simp⟩)
    · intro p c hmem
      rcases List.mem_cons.mp hmem with heq | hin
      · exact FsOp.noConfusion heq
      · rcases List.mem_flatMap.mp hin with ⟨b, _, hb⟩
        simp at hb

/-- Witness for C6 (amended): a two-artifact list produces both text
writes at the stripped paths and returns count 2. -/
theorem claim_C6_witness :
    (⟨"output/a.h".data, "x".data⟩ : Artifact) ∈
      [(⟨"output/a.h".data, "x".data⟩ : Artifact), ⟨"b.bin".data, "y".data⟩] ∧
    (downloadArtifacts "/ws".data
        [⟨"output/a.h".data, "x".data⟩, ⟨"b.bin".data, "y".data⟩]).1 = 2 ∧
    FsOp.writeFileUtf8 "/ws/output/a.h".data "x".data ∈
      (downloadArtifacts "/ws".data
        [⟨"output/a.h".data, "x".data⟩, ⟨"b.bin".data, "y".data⟩]).2 := by
  refine ⟨List.mem_cons_self _ _, ?_, ?_⟩
  · exact (claim_C6_amended "/ws".data _).1
  · exact ((claim_C6_amended "/ws".data _).2.2.1 _ (List.mem_cons_self _ _)).2

/-- **C7 (counterexample).** Claim: a 401/403 body containing none of the
patterns `expired`/`invalid`/`unauthorized` yields `RemoteError` and
leaves the credential.  The body `"access denied"` contains none of those
three, yet the code clears the stored key and throws the authentication
failure, because `access denied` is a fourth pattern in its check. -/
theorem claim_C7_counterexample :
    hasSub "expired".data (toLowerL "access denied".data) = false ∧
    hasSub "invalid".data (toLowerL "access denied".data) = false ∧
    hasSub "unauthorized".data (toLowerL "access denied".data) = false ∧
    handleApiResponse 403 "access denied".data =
      (.authFailed 403 "access denied".data, true) :=
  ⟨by decide, by decide, by decide, rfl⟩

/-- **C7 (amended).** For a 401/403 response: when the lowercased body
contains one of the patterns `expired`, `invalid`, `unauthorized`, or
`access denied`, the stored credential is deleted and the authentication
failure is raised; when it contains none of them, a `RemoteError` with
the status and body is raised and the credential is left unchanged. -/
theorem claim_C7_amended (status : Nat) (text : List Char)
    (hs : status = 401 ∨ status = 403) :
    ((authPatterns.any fun p => hasSub p (toLowerL text)) = true →
      handleApiResponse status text = (.authFailed status text, true)) ∧
    ((authPatterns.any fun p => hasSub p (toLowerL text)) = false →
      handleApiResponse status text = (.remoteError status text, false)) := by
  have hnot : ¬(200 ≤ status ∧ status < 300) := by
    rcases hs with h | h <;> subst h <;> omega
  unfold handleApiResponse
  rw [if_neg hnot]
  constructor
  · intro hm
    rw [if_pos ⟨hs, hm⟩]
  · intro hm
    rw [if_neg]
    intro ⟨_, hm2⟩
    rw [hm] at hm2
    exact Bool.noConfusion hm2

/-- Witness for C7 (amended): a 403 with body `"Token expired"` clears the
key and raises the auth failure; a 403 with body `"quota exceeded"`
raises `RemoteError` and keeps the key. -/
theorem claim_C7_witness :
    (403 = 401 ∨ 403 = 403) ∧
    handleApiResponse 403 "Token expired".data =
      (.authFailed 403 "Token expired".data, true) ∧
    handleApiResponse 403 "quota exceeded".data =
      (.remoteError 403 "quota exceeded".data, false) :=
  ⟨Or.inr rfl,
    (claim_C7_amended 403 "Token expired".data (Or.inr rfl)).1 (by decide),
    (claim_C7_amended 403 "quota exceeded".data (Or.inr rfl)).2 (by decide)⟩

/-- **C9.** `cleanupEphemeralProject`: a successful remote teardown clears
the persisted handle; a failing one logs the failure, propagates no
exception (the function's return is total), leaves the handle intact, and
a later `getEphemeralProject` returns the same context id with zero
remote creation calls. -/
theorem claim_C9_cleanup (pid id e : List Char)
    (remote : Except (List Char) (List Char)) :
    (cleanupEphemeralProject (.ok ()) pid (some id)).1 = none ∧
    (cleanupEphemeralProject (.error e) pid (some id)).1 = some id ∧
    (cleanupEphemeralProject (.error e) pid (some id)).2 =
      ["Cleaning up ephemeral project: ".data ++ pid,
        "Failed to cleanup project: Error: ".data ++ e] ∧
    (id ≠ [] →
      getEphemeralProject remote (cleanupEphemeralProject (.error e) pid (some id)).1 =
        .ok (id, some id, 0)) := by
  refine ⟨rfl, rfl, rfl, fun h => ?_⟩
  show getEphemeralProject remote (some id) = .ok (id, some id, 0)
  unfold getEphemeralProject
  rw [if_pos (by simp [isTruthyHandle, h])]
  rfl

/-- Witness for C9 at a concrete id. -/
theorem claim_C9_witness :
    ("proj-1".data ≠ ([] : List Char)) ∧
    getEphemeralProject (.error "offline".data)
        (cleanupEphemeralProject (.error "boom".data) "proj-1".data
          (some "proj-1".data)).1 =
      .ok ("proj-1".data, some "proj-1".data, 0) :=
  ⟨by decide,
    (claim_C9_cleanup "proj-1".data "proj-1".data "boom".data
      (.error "offline".data)).2.2.2 (by decide)⟩

/-- **C10.** When the monitor phase ends by cancellation (the
`'User cancelled'` outcome), the orchestrator's epilogue performs no
artifact fetch, no filesystem operation, no project cleanup — the
persisted handle is unchanged — and surfaces no error message. -/
theorem claim_C10_cancel_epilogue (sid wsRoot pid : List Char)
    (artifacts : List Artifact) (cleanupRemote : Except (List Char) Unit)
    (handle : Option (List Char)) :
    sessionEpilogue (.error "User cancelled".data) sid wsRoot artifacts
        cleanupRemote pid handle = ([], handle) := by
  show (if ("User cancelled".data : List Char) = "User cancelled".data
      then (([] : List OrchEffect), handle)
      else ([OrchEffect.errorLine ("ERROR: ".data ++ "User cancelled".data),
        OrchEffect.errorMessage ("Session failed: ".data ++ "User cancelled".data),
        OrchEffect.chatError ("Error: ".data ++ "User cancelled".data)], handle)) =
    ([], handle)
  rw [if_pos rfl]

end Reflexible
